import Mathlib

/-
Verification development for the packet-server repository (Go).

The repository holds the current tcp package (src/tcp/client.go together with
the tcp server variant kept in src/unnamed/part_000) and older tcpserver
package variants (src/tcpserver.go, src/server.go, src/unnamed/part_001 to
part_003). The definitions below are shallow embeddings of the corresponding
Go functions: Go byte values are modelled as Nat, received byte streams as
List Nat, buffered channels as bounded queues (a List together with a
capacity), and fallible operations return Option values or a failure flag.
-/

/-
Message framing: src/tcp/client.go, Client.listen and its reader goroutine.
-/

/-- Events observable through the three callback slots of a connection worker
(onNewClient, onNewMessage, onClientConnectionClosed in src/tcp/client.go
Client.listen). -/
inductive CEvent where
  | onConnect : CEvent
  | onMessage : List Nat → CEvent
  | onDisconnect : CEvent
deriving DecidableEq

/-- The reader goroutine of src/tcp/client.go lines 145 to 170: bufio
ReadString accumulates bytes until the delimiter and sends each delimiter
terminated chunk on chReader; when the stream ends first (EOF or any read
error) the pending partial chunk is dropped, because the code breaks out of
the loop without forwarding the bytes that ReadString returned together with
the error. The second argument is the partial chunk accumulated so far. -/
def framesAux (delim : Nat) : List Nat → List Nat → List (List Nat)
  | [], _ => []
  | b :: bs, acc =>
    if b = delim then (acc ++ [b]) :: framesAux delim bs []
    else framesAux delim bs (acc ++ [b])

/-- All messages the reader goroutine delivers on chReader for a received
byte stream, in order. -/
def frames (delim : Nat) (s : List Nat) : List (List Nat) :=
  framesAux delim s []

/-- The byte stream a client produces by sending each payload followed by the
configured delimiter. -/
def payloadStream (delim : Nat) (payloads : List (List Nat)) : List Nat :=
  (payloads.map (fun M => M ++ [delim])).flatten

/-- Callback trace of one full run of Client.listen (src/tcp/client.go lines
131 to 209) in which no external stop signal arrives: the registered
new-client handler fires first, then one message handler invocation per
delivered chunk in stream order, then the connection-closed handler. -/
def clientListenTrace (delim : Nat) (s : List Nat) : List CEvent :=
  CEvent.onConnect :: ((frames delim s).map CEvent.onMessage ++ [CEvent.onDisconnect])

theorem framesAux_of_no_delim (delim : Nat) :
    ∀ s acc, delim ∉ s → framesAux delim s acc = [] := by
  intro s
  induction s with
  | nil => intro acc _; rfl
  | cons b bs ih =>
    intro acc h
    have hb : ¬ b = delim := by
      intro e
      subst e
      exact h (List.mem_cons_self _ _)
    simp only [framesAux, if_neg hb]
    exact ih _ (fun m => h (List.mem_cons_of_mem _ m))

theorem framesAux_append_no_delim (delim : Nat) :
    ∀ s p acc, delim ∉ p → framesAux delim (s ++ p) acc = framesAux delim s acc := by
  intro s
  induction s with
  | nil =>
    intro p acc hp
    simpa using framesAux_of_no_delim delim p acc hp
  | cons b bs ih =>
    intro p acc hp
    by_cases hb : b = delim
    · simp only [List.cons_append, framesAux, if_pos hb, List.append_eq]
      rw [ih p [] hp]
    · simp only [List.cons_append, framesAux, if_neg hb, List.append_eq]
      exact ih p (acc ++ [b]) hp

theorem framesAux_payload (delim : Nat) :
    ∀ M rest acc, delim ∉ M →
      framesAux delim (M ++ delim :: rest) acc =
        (acc ++ (M ++ [delim])) :: framesAux delim rest [] := by
  intro M
  induction M with
  | nil =>
    intro rest acc _
    simp [framesAux]
  | cons b bs ih =>
    intro rest acc h
    have hb : ¬ b = delim := by
      intro e
      subst e
      exact h (List.mem_cons_self _ _)
    simp only [List.cons_append, framesAux, if_neg hb, List.append_eq]
    rw [ih rest (acc ++ [b]) (fun m => h (List.mem_cons_of_mem _ m))]
    simp

theorem frames_payloadStream (delim : Nat) :
    ∀ payloads, (∀ M ∈ payloads, delim ∉ M) →
      frames delim (payloadStream delim payloads) =
        payloads.map (fun M => M ++ [delim]) := by
  intro payloads
  induction payloads with
  | nil => intro _; rfl
  | cons M rest ih =>
    intro h
    have hM : delim ∉ M := h M (List.mem_cons_self _ _)
    have hr := ih (fun N hN => h N (List.mem_cons_of_mem _ hN))
    have hs : payloadStream delim (M :: rest) = M ++ delim :: payloadStream delim rest := by
      simp [payloadStream]
    rw [hs]
    show framesAux delim (M ++ delim :: payloadStream delim rest) [] = _
    rw [framesAux_payload delim M (payloadStream delim rest) [] hM]
    simp only [List.nil_append, List.map_cons]
    exact congrArg _ hr

/-- C1 (amended form). For payloads none of which contains the delimiter
byte, a run of Client.listen with no external stop delivers exactly one
onNewMessage invocation per payload, in order, each carrying the payload WITH
the trailing delimiter still attached (src/tcp/client.go line 183 passes the
ReadString result through unchanged, so the delimiter is not stripped), and
every onNewMessage invocation precedes the single onClientConnectionClosed
invocation for that connection. -/
theorem tcp_listen_delivers_each_payload_once_with_delim (delim : Nat)
    (payloads : List (List Nat)) (h : ∀ M ∈ payloads, delim ∉ M) :
    clientListenTrace delim (payloadStream delim payloads) =
      CEvent.onConnect ::
        (payloads.map (fun M => CEvent.onMessage (M ++ [delim])) ++ [CEvent.onDisconnect]) := by
  unfold clientListenTrace
  rw [frames_payloadStream delim payloads h, List.map_map]
  simp [Function.comp]

/-- C1 counterexample. The client sends payload [65, 66] followed by the
delimiter 10; the worker invokes onNewMessage with [65, 66, 10] and never
with the delimiter-stripped payload [65, 66], contradicting the claim that
the delimiter is stripped before delivery. -/
theorem c1_counterexample :
    clientListenTrace 10 [65, 66, 10] =
      [CEvent.onConnect, CEvent.onMessage [65, 66, 10], CEvent.onDisconnect] ∧
    CEvent.onMessage [65, 66] ∉ clientListenTrace 10 [65, 66, 10] := by
  decide

/-- C1 witness: the amended theorem evaluated at delimiter 10 and the two
payloads [65] and [66, 67]. -/
theorem c1_witness :
    (∀ M ∈ [[65], [66, 67]], (10 : Nat) ∉ M) ∧
    clientListenTrace 10 (payloadStream 10 [[65], [66, 67]]) =
      CEvent.onConnect ::
        ([[65], [66, 67]].map (fun M => CEvent.onMessage (M ++ [10])) ++ [CEvent.onDisconnect]) :=
  ⟨by decide, tcp_listen_delivers_each_payload_once_with_delim 10 [[65], [66, 67]] (by decide)⟩

/-- C10. Bytes received after the last delimiter occurrence are never
delivered: appending any delimiter-free suffix to the received stream leaves
the callback trace of Client.listen unchanged, so a partial message pending
at EOF or at a read error is silently discarded and onNewMessage is not
invoked for it (src/tcp/client.go lines 145 to 170 break out of the reader
loop on error without forwarding the partial chunk). -/
theorem tcp_listen_discards_trailing_partial (delim : Nat) (s p : List Nat)
    (hp : delim ∉ p) :
    clientListenTrace delim (s ++ p) = clientListenTrace delim s := by
  unfold clientListenTrace frames
  rw [framesAux_append_no_delim delim s p [] hp]

/-- C10 witness: a complete message [65, 10] followed by the partial byte 66
produces the same callbacks as the complete message alone. -/
theorem c10_witness :
    (10 : Nat) ∉ [66] ∧
    clientListenTrace 10 ([65, 10] ++ [66]) = clientListenTrace 10 [65, 10] :=
  ⟨by decide, tcp_listen_discards_trailing_partial 10 [65, 10] [66] (by decide)⟩

/-
Shutdown ordering: src/unnamed/part_000 Server.listen lines 350 to 377, with
the worker side in src/tcp/client.go Client.Close and Client.listen.
-/

/-- Observable shutdown events of the orchestrator goroutine in
src/unnamed/part_000 Server.listen once the stop path is taken. -/
inductive SEvent where
  | closeListener : SEvent
  | acceptLoopDone : SEvent
  | closeClient : Nat → SEvent
  | workerDone : Nat → SEvent
  | stopComplete : SEvent
deriving DecidableEq

/-- The per-client portion of the shutdown: the loop over the registry that
calls e.Close() and then blocks on the returned done channel before moving to
the next client. -/
def clientShutdownSeq (clients : List Nat) : List SEvent :=
  clients.flatMap (fun c => [SEvent.closeClient c, SEvent.workerDone c])

/-- The sequential event trace of the shutdown phase of Server.listen in
src/unnamed/part_000: o.listener.Close(), then blocking on chListenerDone,
then for each registered client e, e.Close() followed by blocking on the
returned channel, then sending on chStopped. -/
def shutdownTrace (clients : List Nat) : List SEvent :=
  SEvent.closeListener :: SEvent.acceptLoopDone ::
    (clientShutdownSeq clients ++ [SEvent.stopComplete])

theorem acceptLoopDone_not_mem_seq (clients : List Nat) :
    SEvent.acceptLoopDone ∉ clientShutdownSeq clients := by
  intro h
  simp [clientShutdownSeq, List.mem_flatMap] at h

theorem stopComplete_not_mem_seq (clients : List Nat) :
    SEvent.stopComplete ∉ clientShutdownSeq clients := by
  intro h
  simp [clientShutdownSeq, List.mem_flatMap] at h

theorem get?_last_of_not_mem {α : Type} (l : List α) (x : α) (hx : x ∉ l) (j : Nat)
    (h : (l ++ [x]).get? j = some x) : j = l.length := by
  rcases Nat.lt_trichotomy j l.length with hj | hj | hj
  · exfalso
    rw [List.get?_append hj] at h
    exact hx (List.get?_mem h)
  · exact hj
  · exfalso
    have hlen : (l ++ [x]).length ≤ j := by
      simp only [List.length_append, List.length_singleton]
      omega
    rw [List.get?_eq_none.mpr hlen] at h
    exact Option.noConfusion h

theorem shutdown_index_acceptLoopDone (clients : List Nat) (i : Nat)
    (h : (shutdownTrace clients).get? i = some SEvent.acceptLoopDone) : i = 1 := by
  match i with
  | 0 => simp [shutdownTrace] at h
  | 1 => rfl
  | Nat.succ (Nat.succ k) =>
    exfalso
    have h2 : (clientShutdownSeq clients ++ [SEvent.stopComplete]).get? k =
        some SEvent.acceptLoopDone := h
    have hm := List.get?_mem h2
    rcases List.mem_append.mp hm with h1 | h1
    · exact acceptLoopDone_not_mem_seq clients h1
    · simp at h1

theorem shutdown_index_closeClient (clients : List Nat) (j c : Nat)
    (h : (shutdownTrace clients).get? j = some (SEvent.closeClient c)) : 2 ≤ j := by
  match j with
  | 0 => simp [shutdownTrace] at h
  | 1 => simp [shutdownTrace] at h
  | Nat.succ (Nat.succ k) => omega

theorem shutdown_index_stopComplete (clients : List Nat) (j : Nat)
    (h : (shutdownTrace clients).get? j = some SEvent.stopComplete) :
    j = (clientShutdownSeq clients).length + 2 := by
  match j with
  | 0 => simp [shutdownTrace] at h
  | 1 => simp [shutdownTrace] at h
  | Nat.succ (Nat.succ k) =>
    have h2 : (clientShutdownSeq clients ++ [SEvent.stopComplete]).get? k =
        some SEvent.stopComplete := h
    have := get?_last_of_not_mem (clientShutdownSeq clients) SEvent.stopComplete
      (stopComplete_not_mem_seq clients) k h2
    omega

/-- C2. In the shutdown phase of src/unnamed/part_000 Server.listen, the
listener is closed and the accept goroutine is confirmed terminated before
any registered client connection is force-closed, every registered client is
force-closed and its worker completion is waited on, and every worker
completion confirmation happens before the stop-completion signal is sent on
the channel returned by Stop(). -/
theorem serverListen_shutdown_ordering (clients : List Nat) :
    (∀ i j c, (shutdownTrace clients).get? i = some SEvent.closeListener →
        (shutdownTrace clients).get? j = some (SEvent.closeClient c) → i < j) ∧
    (∀ i j c, (shutdownTrace clients).get? i = some SEvent.acceptLoopDone →
        (shutdownTrace clients).get? j = some (SEvent.closeClient c) → i < j) ∧
    (∀ i j c, (shutdownTrace clients).get? i = some (SEvent.workerDone c) →
        (shutdownTrace clients).get? j = some SEvent.stopComplete → i < j) ∧
    (∀ c, c ∈ clients → SEvent.closeClient c ∈ shutdownTrace clients ∧
        SEvent.workerDone c ∈ shutdownTrace clients) := by
  refine ⟨?_, ?_, ?_, ?_⟩
  · intro i j c hi hj
    have hj2 := shutdown_index_closeClient clients j c hj
    have hi0 : i = 0 ∨ 2 ≤ i := by
      match i with
      | 0 => exact Or.inl rfl
      | 1 => simp [shutdownTrace] at hi
      | Nat.succ (Nat.succ k) => exact Or.inr (by omega)
    rcases hi0 with h0 | h2
    · omega
    · exfalso
      match i, h2 with
      | Nat.succ (Nat.succ k), _ =>
        have hi2 : (clientShutdownSeq clients ++ [SEvent.stopComplete]).get? k =
            some SEvent.closeListener := hi
        have hm := List.get?_mem hi2
        rcases List.mem_append.mp hm with h1 | h1
        · simp [clientShutdownSeq, List.mem_flatMap] at h1
        · simp at h1
  · intro i j c hi hj
    have h1 := shutdown_index_acceptLoopDone clients i hi
    have h2 := shutdown_index_closeClient clients j c hj
    omega
  · intro i j c hi hj
    have hjv := shutdown_index_stopComplete clients j hj
    have hilt : i < (shutdownTrace clients).length := by
      by_contra hc
      push_neg at hc
      rw [List.get?_eq_none.mpr hc] at hi
      exact Option.noConfusion hi
    have hlen : (shutdownTrace clients).length = (clientShutdownSeq clients).length + 3 := by
      simp [shutdownTrace]
    have hne : i ≠ (clientShutdownSeq clients).length + 2 := by
      intro he
      subst he
      have hs : (shutdownTrace clients).get? ((clientShutdownSeq clients).length + 2) =
          some SEvent.stopComplete := by
        have : (clientShutdownSeq clients ++ [SEvent.stopComplete]).get?
            ((clientShutdownSeq clients).length) = some SEvent.stopComplete :=
          List.get?_concat_length _ _
        exact this
      rw [hs] at hi
      exact SEvent.noConfusion (Option.some.inj hi)
    omega
  · intro c hc
    have hclose : SEvent.closeClient c ∈ clientShutdownSeq clients :=
      List.mem_flatMap.mpr ⟨c, hc, by simp⟩
    have hdone : SEvent.workerDone c ∈ clientShutdownSeq clients :=
      List.mem_flatMap.mpr ⟨c, hc, by simp⟩
    exact ⟨List.mem_cons_of_mem _ (List.mem_cons_of_mem _ (List.mem_append.mpr (Or.inl hclose))),
      List.mem_cons_of_mem _ (List.mem_cons_of_mem _ (List.mem_append.mpr (Or.inl hdone)))⟩

/-- C2 witness: the ordering theorem applied to the concrete registry [0, 1],
discharging the get? hypotheses at concrete indices. -/
theorem c2_witness :
    (1 : Nat) < 2 ∧ (5 : Nat) < 6 ∧ SEvent.closeClient 0 ∈ shutdownTrace [0, 1] :=
  ⟨(serverListen_shutdown_ordering [0, 1]).2.1 1 2 0 rfl rfl,
   (serverListen_shutdown_ordering [0, 1]).2.2.1 5 6 1 rfl rfl,
   ((serverListen_shutdown_ordering [0, 1]).2.2.2 0 (by decide)).1⟩

/-
Client identifier generation: src/unnamed/part_000 lines 221 to 232 and
src/server.go lines 276 to 284 (identical bodies). The method runs under the
exclusive server mutex, so any set of racing calls is serialized; the model
below is the resulting serialized sequence of atomic calls. Go int is a
64-bit signed integer with wraparound, modelled explicitly.
-/

/-- Wraparound of a Go int (64-bit signed) value. -/
def int64wrap (z : Int) : Int := (z + 2 ^ 63) % 2 ^ 64 - 2 ^ 63

/-- One atomic call of Server.getAndIncrementNextClientID: under the lock,
id := o.nextClientID; o.nextClientID++; return id. The pair is (returned id,
new counter value). -/
def getAndIncrementNextClientID (nextClientID : Int) : Int × Int :=
  (nextClientID, int64wrap (nextClientID + 1))

/-- Counter value after k serialized calls, starting from the Go zero value 0
set at server construction. -/
def nextClientIDAfter : Nat → Int
  | 0 => 0
  | k + 1 => (getAndIncrementNextClientID (nextClientIDAfter k)).2

/-- The identifier returned by the k-th serialized call (0-indexed). -/
def clientIDOfCall (k : Nat) : Int :=
  (getAndIncrementNextClientID (nextClientIDAfter k)).1

theorem int64wrap_of_range (z : Int) (h1 : 0 ≤ z) (h2 : z < 2 ^ 63) :
    int64wrap z = z := by
  have e63 : (2 : Int) ^ 63 = 9223372036854775808 := by norm_num
  have e64 : (2 : Int) ^ 64 = 18446744073709551616 := by norm_num
  unfold int64wrap
  rw [e63] at h2
  rw [e63, e64, Int.emod_eq_of_lt (by omega) (by omega)]
  omega

theorem nextClientIDAfter_of_small : ∀ k : Nat, k < 2 ^ 63 → nextClientIDAfter k = k := by
  intro k
  induction k with
  | zero => intro _; rfl
  | succ n ih =>
    intro h
    have hn : n < 2 ^ 63 := Nat.lt_of_succ_lt h
    show (getAndIncrementNextClientID (nextClientIDAfter n)).2 = ((n + 1 : Nat) : Int)
    simp only [getAndIncrementNextClientID]
    rw [ih hn]
    have h2 : ((n : Int) + 1) < 2 ^ 63 := by exact_mod_cast h
    rw [int64wrap_of_range ((n : Int) + 1) (by omega) h2]
    push_cast
    ring

/-- C3. Any two distinct serialized calls of getAndIncrementNextClientID
return distinct identifiers, and the later call returns the strictly greater
one; the serialization order is total because the method body runs under the
exclusive server mutex. The bound excludes wraparound of the 64-bit counter,
which would first occur at the 2 to the 63rd call. -/
theorem clientID_unique_increasing (i j : Nat) (hij : i < j) (hj : j < 2 ^ 63) :
    clientIDOfCall i < clientIDOfCall j ∧ clientIDOfCall i ≠ clientIDOfCall j := by
  have hi : i < 2 ^ 63 := lt_trans hij hj
  have e1 : clientIDOfCall i = (i : Int) := nextClientIDAfter_of_small i hi
  have e2 : clientIDOfCall j = (j : Int) := nextClientIDAfter_of_small j hj
  rw [e1, e2]
  constructor
  · exact_mod_cast hij
  · intro h
    have : i = j := by exact_mod_cast h
    omega

/-- C3 witness: calls 0 and 1. -/
theorem c3_witness :
    (0 : Nat) < 1 ∧ (1 : Nat) < 2 ^ 63 ∧
    (clientIDOfCall 0 < clientIDOfCall 1 ∧ clientIDOfCall 0 ≠ clientIDOfCall 1) :=
  ⟨by norm_num, by norm_num, clientID_unique_increasing 0 1 (by norm_num) (by norm_num)⟩

/-
Broadcast: src/unnamed/part_000 Server.SendBytesAll lines 52 to 67 (the tcp
package variant, also src/server.go lines 80 to 95) versus the older
src/tcpserver.go Server.SendBytesAll lines 114 to 127. The transport outcome
of each individual send is modelled by the oracle sendFails.
-/

/-- The tcp package Server.SendBytesAll: iterate all registered clients, call
client.SendBytes on each, log a failure and continue; the Go function has no
return value. The result lists, in iteration order, each attempted client
paired with whether its send failed. -/
def sendBytesAllTcp (sendFails : Nat → Bool) : List Nat → List (Nat × Bool)
  | [] => []
  | c :: rest => (c, sendFails c) :: sendBytesAllTcp sendFails rest

/-- The older tcpserver package Server.SendBytesAll: iterate the clients but
return the first send error immediately, skipping every later client. The
result is (clients attempted in order, whether an error was returned). -/
def sendBytesAllTcpserver (sendFails : Nat → Bool) : List Nat → List Nat × Bool
  | [] => ([], false)
  | c :: rest =>
    if sendFails c then ([c], true)
    else
      let r := sendBytesAllTcpserver sendFails rest
      (c :: r.1, r.2)

/-- C4 counterexample. With two registered clients 0 and 1 where the send to
client 0 fails, the tcpserver variant of SendBytesAll (src/tcpserver.go lines
114 to 127) attempts only client 0, never attempts client 1, and raises the
error to the caller, contradicting the claim that a failed send does not
abort the iteration and that no error is raised. -/
theorem c4_counterexample :
    (sendBytesAllTcpserver (fun c => c == 0) [0, 1]).1 = [0] ∧
    1 ∉ (sendBytesAllTcpserver (fun c => c == 0) [0, 1]).1 ∧
    (sendBytesAllTcpserver (fun c => c == 0) [0, 1]).2 = true := by
  decide

/-- C4 (amended form). The tcp package SendBytesAll (src/unnamed/part_000
lines 52 to 67 and src/server.go lines 80 to 95) attempts a send to every
registered client in iteration order even when individual sends fail, the
clients whose transport write succeeds all receive the payload, and no error
is raised to the caller (the Go function returns nothing). -/
theorem tcp_broadcast_attempts_all (sendFails : Nat → Bool) (clients : List Nat) :
    (sendBytesAllTcp sendFails clients).map Prod.fst = clients ∧
    ∀ c ∈ clients, (c, sendFails c) ∈ sendBytesAllTcp sendFails clients := by
  induction clients with
  | nil => exact ⟨rfl, by intro c hc; cases hc⟩
  | cons a rest ih =>
    refine ⟨?_, ?_⟩
    · show (a, sendFails a).1 :: (sendBytesAllTcp sendFails rest).map Prod.fst = a :: rest
      rw [ih.1]
    · intro c hc
      rcases List.mem_cons.mp hc with h | h
      · subst h
        exact List.mem_cons_self _ _
      · exact List.mem_cons_of_mem _ (ih.2 c h)

/-- C4 witness: broadcast over clients [0, 1] where the send to client 0
fails; client 1 is still attempted and receives the payload. -/
theorem c4_witness :
    (1 : Nat) ∈ [0, 1] ∧
    ((sendBytesAllTcp (fun c => c == 0) [0, 1]).map Prod.fst = [0, 1] ∧
      ((1 : Nat), false) ∈ sendBytesAllTcp (fun c => c == 0) [0, 1]) :=
  ⟨by decide,
   (tcp_broadcast_attempts_all (fun c => c == 0) [0, 1]).1,
   (tcp_broadcast_attempts_all (fun c => c == 0) [0, 1]).2 1 (by decide)⟩

/-
Server stop: src/server.go Server.Stop lines 200 to 226 (tcpserver package,
with the started sentinel and the NotRunning check) versus
src/unnamed/part_000 Server.Stop lines 162 to 181 (tcp package, which only
sends the kill signal). Buffered channels are modelled as queues; the nil
channel of a never-started server is modelled as none, and sending on a nil
Go channel blocks forever.
-/

/-- The mutable server state touched by src/server.go Server.Stop: the
started sentinel, the registered clients, and the two lifecycle channels
(each created with capacity 1 by Start). -/
structure TcpserverState where
  started : Bool
  clients : List Nat
  chStop : List Bool
  chDone : List Bool
deriving DecidableEq

/-- src/server.go Server.Stop under the lock: if the server is not started,
return a nil channel and the NotRunning error without touching any state;
otherwise enqueue the kill signal on chStop and return the chDone handle with
no error. The result is (state after the call, returned channel, whether the
NotRunning error was returned). -/
def tcpserverStop (s : TcpserverState) : TcpserverState × Option (List Bool) × Bool :=
  if s.started then ({ s with chStop := s.chStop ++ [true] }, some s.chDone, false)
  else (s, none, true)

/-- src/unnamed/part_000 Server.Stop: no started check exists; the method
immediately sends on chKill. The argument is the chKill buffer (none for the
nil channel of a never-started server, capacity 1 once Start created it); the
result is the new buffer, or none when the send blocks forever. -/
def tcpPkgStop (chKill : Option (List Bool)) : Option (List Bool) :=
  match chKill with
  | none => none
  | some buf => if buf.length < 1 then some (buf ++ [true]) else none

/-- C5 counterexample. In the tcp package variant (src/unnamed/part_000 lines
162 to 181) Stop performs no started check: on a never-started server the
send on the nil chKill channel blocks forever instead of failing with a
NotRunning error, and on a server that has completed a stop cycle the call
delivers a fresh kill signal (a side effect) and reports no error. -/
theorem c5_counterexample :
    tcpPkgStop none = none ∧ tcpPkgStop (some []) = some [true] := by
  decide

/-- C5 (amended form). In the tcpserver package variant (src/server.go lines
200 to 226) the claim holds: calling Stop on a server that is not started
fails synchronously with the NotRunning error, returns no channel, delivers
no stop request, and leaves the whole server state unchanged. The tcp package
variant has no such guard. -/
theorem tcpserver_stop_not_running (s : TcpserverState) (h : s.started = false) :
    tcpserverStop s = (s, none, true) := by
  unfold tcpserverStop
  rw [h]
  rfl

/-- C5 witness: the guarded Stop evaluated on a concrete non-started state. -/
theorem c5_witness :
    ({ started := false, clients := [7], chStop := [], chDone := [] } :
        TcpserverState).started = false ∧
    tcpserverStop { started := false, clients := [7], chStop := [], chDone := [] } =
      ({ started := false, clients := [7], chStop := [], chDone := [] }, none, true) :=
  ⟨rfl, tcpserver_stop_not_running
    { started := false, clients := [7], chStop := [], chDone := [] } rfl⟩

/-
TLS construction: src/unnamed/part_000 CreateServerWithTLS lines 201 to 215
and src/server.go lines 256 to 270 (identical bodies). The call
tls.LoadX509KeyPair(certFile, keyFile) either produces a certificate or an
error; its outcome is the model input. The Go code reads
cert, _ := tls.LoadX509KeyPair(certFile, keyFile)
and therefore discards the error.
-/

/-- The certificate value bound by cert, _ := tls.LoadX509KeyPair(...): the
loaded certificate on success, the Go zero-value certificate (modelled as 0)
when loading failed. -/
def loadX509KeyPairCert (pair : Except String Nat) : Nat :=
  match pair with
  | Except.ok cert => cert
  | Except.error _ => 0

/-- The only construction-relevant field of the resulting server: the
certificate placed into its tls.Config. -/
structure TLSServer where
  tlsCert : Nat
deriving DecidableEq

/-- CreateServerWithTLS: builds the tls.Config from whatever
loadX509KeyPairCert produced and unconditionally returns a server instance;
there is no error path. -/
def createServerWithTLS (pair : Except String Nat) : TLSServer :=
  { tlsCert := loadX509KeyPairCert pair }

/-- C6 (code bug). When the certificate and key material is invalid, so
tls.LoadX509KeyPair fails, CreateServerWithTLS still returns a server
instance, carrying the zero-value certificate, instead of failing at
construction time as the spec requires: the code discards the load error. -/
theorem createServerWithTLS_ignores_bad_cert :
    createServerWithTLS (Except.error "invalid certificate material") =
      { tlsCert := 0 } := by
  rfl

/-
Accept loop: src/unnamed/part_000 Server.listen accept goroutine lines 287
to 322 (the tcp package, also src/server.go lines 343 to 378) versus the
older src/tcpserver.go Server.Start lines 189 to 221.
-/

/-- Outcome of one listener.Accept() attempt: a new connection, an error
classified temporary by net.Error.Temporary(), or a permanent error. -/
inductive AcceptResult where
  | conn : Nat → AcceptResult
  | tempErr : AcceptResult
  | permErr : AcceptResult
deriving DecidableEq

/-- Observable events of the accept machinery: a connection handed over for
worker creation, a backoff sleep of the given number of seconds, the accept
loop exiting, and the whole process terminating (log.Fatal). -/
inductive AEvent where
  | delivered : Nat → AEvent
  | slept : Nat → AEvent
  | exited : AEvent
  | fatal : AEvent
deriving DecidableEq

/-- The tcp package accept goroutine of src/unnamed/part_000 lines 287 to
322, run on a sequence of accept outcomes: a connection is forwarded on
chListener and the loop continues; a temporary error sleeps
1 * time.Second and the loop continues; a permanent error breaks out of the
loop, after which the goroutine signals chListenerDone and exits. -/
def acceptLoopTrace : List AcceptResult → List AEvent
  | [] => []
  | AcceptResult.conn c :: rest => AEvent.delivered c :: acceptLoopTrace rest
  | AcceptResult.tempErr :: rest => AEvent.slept 1 :: acceptLoopTrace rest
  | AcceptResult.permErr :: _ => [AEvent.exited]

/-- The failure branch of the accept loop inside src/tcpserver.go
Server.Start lines 197 to 207: a temporary error sleeps one second; a
non-temporary error while s.running is true calls log.Fatal(err), which
terminates the process; only when s.running is already false is it treated as
the listener having been closed and the loop exits. -/
def tcpserverAcceptFailureEvent (running : Bool) (temporary : Bool) : AEvent :=
  if temporary then AEvent.slept 1
  else if running then AEvent.fatal
  else AEvent.exited

/-- C7 counterexample. In src/tcpserver.go Server.Start, a permanent accept
error while the server is running terminates the whole process via
log.Fatal, contradicting the claim that a permanent error causes the accept
loop, and only the accept loop, to exit with no broader failure. -/
theorem c7_counterexample :
    tcpserverAcceptFailureEvent true false = AEvent.fatal ∧
    AEvent.fatal ≠ AEvent.exited := by
  decide

/-- C7 (amended form). In the tcp package accept goroutine
(src/unnamed/part_000 lines 287 to 322), a temporary accept error produces
exactly one backoff sleep of one second and the loop then continues with the
remaining attempts; a permanent error makes the loop exit at once, processing
nothing further; and no schedule of outcomes ever produces a process-fatal
event. Only the older tcpserver variant can call log.Fatal. -/
theorem tcp_accept_loop_behavior (rest : List AcceptResult) :
    acceptLoopTrace (AcceptResult.tempErr :: rest) = AEvent.slept 1 :: acceptLoopTrace rest ∧
    acceptLoopTrace (AcceptResult.permErr :: rest) = [AEvent.exited] ∧
    AEvent.fatal ∉ acceptLoopTrace rest := by
  refine ⟨rfl, rfl, ?_⟩
  induction rest with
  | nil => intro h; cases h
  | cons a t ih =>
    intro h
    match a with
    | AcceptResult.conn c =>
      rcases List.mem_cons.mp h with h1 | h1
      · exact AEvent.noConfusion h1
      · exact ih h1
    | AcceptResult.tempErr =>
      rcases List.mem_cons.mp h with h1 | h1
      · exact AEvent.noConfusion h1
      · exact ih h1
    | AcceptResult.permErr =>
      rcases List.mem_cons.mp h with h1 | h1
      · exact AEvent.noConfusion h1
      · cases h1

/-
Per-client send: src/tcp/client.go Client.SendBytes lines 111 to 117 (tcp
package: b = append(b, o.delim); _, err := o.conn.Write(b); return err)
versus the older src/tcpserver.go Client.SendBytes lines 104 to 107, which
writes the bytes unchanged. The transport outcome of conn.Write is the model
input writeErr; the first component of the result is the byte sequence
handed to conn.Write, the second is the error returned to the caller.
-/

/-- The tcp package Client.SendBytes. -/
def tcpSendBytes (delim : Nat) (b : List Nat) (writeErr : Option String) :
    List Nat × Option String :=
  (b ++ [delim], writeErr)

/-- The older tcpserver package Client.SendBytes; this Client has no
configured delimiter field at all and writes b unchanged. -/
def tcpserverSendBytes (b : List Nat) (writeErr : Option String) :
    List Nat × Option String :=
  (b, writeErr)

/-- C8 counterexample. The tcpserver variant of Client.SendBytes
(src/tcpserver.go lines 104 to 107) hands exactly [65] to conn.Write for the
payload [65]; the claim requires the written bytes to be the payload followed
by the configured delimiter (10 in every tcpserver era variant, which frames
reads with ReadString of the newline byte), which would be [65, 10]. -/
theorem c8_counterexample :
    (tcpserverSendBytes [65] none).1 = [65] ∧ ([65] : List Nat) ≠ [65] ++ [10] := by
  decide

/-- C8 (amended form). The tcp package Client.SendBytes (src/tcp/client.go
lines 111 to 117) hands to the transport exactly the payload bytes followed
by the single configured delimiter byte, and returns an error exactly when
the underlying conn.Write fails; the older tcpserver variant writes the
payload unchanged, leaving delimiter framing to the caller. -/
theorem tcp_sendBytes_appends_delim (delim : Nat) (b : List Nat) (writeErr : Option String) :
    (tcpSendBytes delim b writeErr).1 = b ++ [delim] ∧
    ((tcpSendBytes delim b writeErr).2 = none ↔ writeErr = none) :=
  ⟨rfl, Iff.rfl⟩

/-
Client close: src/tcp/client.go Client.Close lines 95 to 99
(o.chStop <- true; return o.chDone) together with CreateClient lines 26 to
37, which creates chStop and chDone with capacity 1, and the select loop of
Client.listen lines 175 to 189, which consumes at most one stop signal
before exiting.
-/

/-- A buffered Go channel of booleans: the queued values and the capacity.
A send appends when the buffer has room and otherwise blocks. -/
structure Chan where
  buf : List Bool
  cap : Nat
deriving DecidableEq

/-- A send on a buffered channel: some new channel state when the buffer has
room, none when the send blocks. -/
def chanSend (ch : Chan) : Option Chan :=
  if ch.buf.length < ch.cap then some { ch with buf := ch.buf ++ [true] } else none

/-- The chStop channel as CreateClient makes it: make(chan bool, 1). -/
def createClientChStop : Chan :=
  { buf := [], cap := 1 }

/-- Client.Close from src/tcp/client.go lines 95 to 99: perform
o.chStop <- true and return the chDone handle. The result is the new chStop
state, or none when the send blocks the caller. -/
def clientClose (chStop : Chan) : Option Chan :=
  chanSend chStop

/-- One resolution order of the select loop of Client.listen lines 175 to
189: each loop iteration resolves to a delivered reader message, to the
reader channel being closed, or to a stop signal. -/
inductive SelEvent where
  | readerMsg : List Nat → SelEvent
  | readerClosed : SelEvent
  | stopSignal : SelEvent
deriving DecidableEq

/-- How many stop signals the select loop consumes from chStop under a given
resolution order: a reader message keeps the loop running, while either a
closed reader channel or a stop signal sets stop to true and the loop exits,
so nothing later in the schedule is consumed. -/
def listenStopSignalsConsumed : List SelEvent → Nat
  | [] => 0
  | SelEvent.readerMsg _ :: rest => listenStopSignalsConsumed rest
  | SelEvent.readerClosed :: _ => 0
  | SelEvent.stopSignal :: _ => 1

/-- C9 counterexample. Starting from the channel state CreateClient builds,
a first Close succeeds, but a second Close issued before the worker has
consumed the first stop signal finds the capacity-1 buffer full and blocks
the caller, contradicting the claim that a second close never blocks beyond
request submission. -/
theorem c9_counterexample :
    (clientClose createClientChStop).isSome = true ∧
    (clientClose createClientChStop).bind clientClose = none := by
  decide

/-- C9 (amended form). Close is an unconditional send on the capacity-1
chStop buffer: whenever the previously sent stop signal has already been
consumed by the worker (in particular after the worker has terminated by
consuming it), a further Close succeeds without blocking; and under every
select resolution order the worker consumes at most one stop signal, because
the loop exits right after the first one. A second Close issued while the
first signal is still buffered blocks until the worker consumes it. -/
theorem clientClose_idempotent_after_consumption (ch : Chan)
    (hbuf : ch.buf = []) (hcap : ch.cap = 1) :
    (clientClose ch).isSome = true ∧
    ∀ sched, listenStopSignalsConsumed sched ≤ 1 := by
  constructor
  · unfold clientClose chanSend
    rw [hbuf, hcap]
    rfl
  · intro sched
    induction sched with
    | nil => exact Nat.zero_le 1
    | cons e rest ih =>
      match e with
      | SelEvent.readerMsg m => exact ih
      | SelEvent.readerClosed => exact Nat.zero_le 1
      | SelEvent.stopSignal => exact Nat.le_refl 1

/-- C9 witness: the amended theorem at the freshly created channel state and
a schedule carrying two pending stop signals. -/
theorem c9_witness :
    createClientChStop.buf = [] ∧ createClientChStop.cap = 1 ∧
    ((clientClose createClientChStop).isSome = true ∧
      listenStopSignalsConsumed [SelEvent.stopSignal, SelEvent.stopSignal] ≤ 1) :=
  ⟨rfl, rfl,
   (clientClose_idempotent_after_consumption createClientChStop rfl rfl).1,
   (clientClose_idempotent_after_consumption createClientChStop rfl rfl).2
     [SelEvent.stopSignal, SelEvent.stopSignal]⟩
